import Mathlib

/-!
# BCM2708 serial MIDI output: fifo and transmit-interrupt coordination

A shallow embedding of the output path of `sound/arm/bcm2708_midi.c`:
`bcm2708_midi_open`, `bcm2708_midi_close`, `bcm2708_midi_trigger`,
`bcm2708_midi_interrupt`, `bcm2708_midi_init_fifo` and the three small
helpers that touch the UART (`bcm2708_midi_activate_irq`,
`bcm2708_midi_deactivate_irq`, `bcm2708_midi_transmit`).

Bytes are natural numbers (an `unsigned char` is a value below 256; no
arithmetic is done on them).  The driver state is the kfifo of the card plus
the one UART register the driver toggles at run time, UART1IER.  Every entry
point returns the new state together with the ordered list of calls it made
to its collaborators, so that "is called" and "is not called" can be stated.
-/

namespace Bcm2708Midi

/-! ## Constants of the driver -/

/-- The macro `FIFO_SIZE`: capacity in bytes of the transfer fifo. -/
def FIFO_SIZE : Nat := 128

/-- The value `bcm2708_midi_activate_irq` writes to UART1IER (transmit interrupt enabled). -/
def IER_TX_ENABLE : Nat := 0x02

/-- The value `bcm2708_midi_deactivate_irq` writes to UART1IER (interrupts disabled). -/
def IER_DISABLE : Nat := 0x00

/-- The error code ENOMEM, returned negated by a failed allocation. -/
def ENOMEM : Int := 12

/-! ## The kfifo (kernel library, modelled from the TransferBuffer of the spec) -/

/-- Modelled from the spec: `struct kfifo` (include/linux/kfifo.h and lib/kfifo.c are
not among the sources).  Spec 3, TransferBuffer: a fixed capacity `size` in bytes and
the current contents `buf`, an ordered sequence of bytes, oldest first. -/
structure kfifo where
  size : Nat
  buf : List Nat
deriving DecidableEq

/-- Modelled from the spec: `kfifo_len`, the occupancy count of the TransferBuffer. -/
def kfifo_len (fifo : kfifo) : Nat := fifo.buf.length

/-- Modelled from the spec: `kfifo_avail`, spec 4.1 `free_capacity()`: returns
C - occupancy, without side effect. -/
def kfifo_avail (fifo : kfifo) : Nat := fifo.size - kfifo_len fifo

/-- Modelled from the spec: `kfifo_is_empty`, spec 4.1 `is_empty()`. -/
def kfifo_is_empty (fifo : kfifo) : Bool := kfifo_len fifo == 0

/-- Modelled from the spec: `kfifo_reset`, spec 4.1 `reset()`: clears contents and
occupancy to zero; the capacity is kept. -/
def kfifo_reset (fifo : kfifo) : kfifo := { fifo with buf := [] }

/-- Modelled from the spec: `kfifo_in`, spec 4.1 `enqueue(bytes, max)`: accepts the first
`min(len(bytes), max, free_capacity())` bytes in order, appends them, and returns how
many were accepted. -/
def kfifo_in (fifo : kfifo) (data : List Nat) (n : Nat) : kfifo × Nat :=
  let accepted := data.take (min n (kfifo_avail fifo))
  ({ fifo with buf := fifo.buf ++ accepted }, accepted.length)

/-- Modelled from the spec: `kfifo_out`, spec 4.1 `dequeue(max)`: removes and returns up
to `max` bytes from the front, in FIFO order, fewer if the occupancy is below `max`. -/
def kfifo_out (fifo : kfifo) (n : Nat) : kfifo × List Nat :=
  ({ fifo with buf := fifo.buf.drop n }, fifo.buf.take n)

/-- Modelled from the spec: `kfifo_alloc`, the creation of a TransferBuffer of capacity
`size` (spec 3: created once with capacity C, empty).  The allocation can fail for lack
of memory, which `nomem` stands for; the result is then `-ENOMEM`. -/
def kfifo_alloc (size : Nat) (nomem : Bool) : Except Int kfifo :=
  if nomem then Except.error (-ENOMEM) else Except.ok { size := size, buf := [] }

/-! ## The submission source -/

/-- Modelled from the spec: `snd_rawmidi_transmit(substream, data, count)`
(sound/core/rawmidi.c is not among the sources).  Spec 6, submission source:
`provide(max_count) -> ordered_bytes` with `len <= max_count`.  For a producer holding
the bytes `pending`, the call stores the first `count` of them (all of them if there are
fewer) in `data`; the length of the result is the value the call returns. -/
def snd_rawmidi_transmit (pending : List Nat) (count : Nat) : List Nat :=
  pending.take count

/-! ## Driver state and the calls an entry point makes -/

/-- The state the output path works on: `midi->fifo` of `struct bcm2708_midi`, and the
memory-mapped register UART1IER through which the transmit interrupt is armed. -/
structure bcm2708_midi where
  fifo : kfifo
  uart1ier : Nat
deriving DecidableEq

/-- The calls an entry point makes to its collaborators, in the order made. -/
inductive Call where
  /-- The message `dev_err(&pdev->dev, "dropout!\n")`. -/
  | dev_err_dropout
  /-- The message `dev_err(&pdev->dev, "%d samples lost\n", n)`. -/
  | dev_err_samples_lost (n : Nat)
  /-- A call `snd_rawmidi_transmit(substream, data, count)` that returned `ret`. -/
  | rawmidi_transmit (count : Nat) (ret : Nat)
  /-- A call of `kfifo_in`; `accepted` are the bytes it appended to the fifo. -/
  | fifo_in (accepted : List Nat)
  /-- A call of `bcm2708_midi_activate_irq`. -/
  | activate_irq
  /-- A call of `bcm2708_midi_deactivate_irq`. -/
  | deactivate_irq
  /-- A call of `bcm2708_midi_transmit`; `written` are the bytes it wrote to UART1IO. -/
  | transmit (written : List Nat)
deriving DecidableEq

/-- The transmit interrupt is armed: UART1IER holds the enable value. -/
def armed (m : bcm2708_midi) : Bool := m.uart1ier == IER_TX_ENABLE

/-! ## The functions of the driver -/

/-- The function `bcm2708_midi_activate_irq`: `writel(0x02, UART1IER)`. -/
def bcm2708_midi_activate_irq (m : bcm2708_midi) : bcm2708_midi :=
  { m with uart1ier := IER_TX_ENABLE }

/-- The function `bcm2708_midi_deactivate_irq`: `writel(0x00, UART1IER)`. -/
def bcm2708_midi_deactivate_irq (m : bcm2708_midi) : bcm2708_midi :=
  { m with uart1ier := IER_DISABLE }

/-- The function `bcm2708_midi_transmit(data, num)`: the loop
`for (i = 0; i < num; i++) writel(data[i], UART1IO)`; the result is the sequence of
bytes written to UART1IO. -/
def bcm2708_midi_transmit (data : List Nat) (num : Nat) : List Nat :=
  (List.range num).map (fun i => data.getD i 0)

/-- The function `bcm2708_midi_interrupt`:
`if (!kfifo_is_empty(&midi->fifo))` then `get = kfifo_out(&midi->fifo, data, 8)` and
`bcm2708_midi_transmit(data, get)`, else `bcm2708_midi_deactivate_irq()`.  The return
value `IRQ_HANDLED` is the same on both paths and is left out. -/
def bcm2708_midi_interrupt (m : bcm2708_midi) : bcm2708_midi × List Call :=
  if !kfifo_is_empty m.fifo then
    let out := kfifo_out m.fifo 8
    let data := out.2
    let get := data.length
    ({ m with fifo := out.1 }, [Call.transmit (bcm2708_midi_transmit data get)])
  else
    (bcm2708_midi_deactivate_irq m, [Call.deactivate_irq])

/-- The function `bcm2708_midi_open`: `kfifo_reset(&midi->fifo); return 0;`. -/
def bcm2708_midi_open (m : bcm2708_midi) : bcm2708_midi × List Call :=
  ({ m with fifo := kfifo_reset m.fifo }, [])

/-- The function `bcm2708_midi_close`: `return 0;`. -/
def bcm2708_midi_close (m : bcm2708_midi) : bcm2708_midi × List Call :=
  (m, [])

/-- The function `bcm2708_midi_trigger`.  The argument `substream` is the submission
source as this call sees it: `substream count` is the byte sequence that
`snd_rawmidi_transmit(substream, data, count)` stores in `data`, and its length is the
value `get` that call returns (a count, so the negative error returns of the kernel
function are outside the model).  Line by line:
`av = kfifo_avail(&midi->fifo)`;
`if (av == 0)` then `dev_err("dropout!")` and return;
`get = snd_rawmidi_transmit(substream, data, av)`;
`if (av < get) dev_err("%d samples lost", get - av)`;
`kfifo_in(&midi->fifo, data, min(get, av))`;
`bcm2708_midi_activate_irq()`. -/
def bcm2708_midi_trigger (substream : Nat → List Nat) (m : bcm2708_midi) :
    bcm2708_midi × List Call :=
  let av := kfifo_avail m.fifo
  if av = 0 then
    (m, [Call.dev_err_dropout])
  else
    let data := substream av
    let get := data.length
    let lost := if av < get then [Call.dev_err_samples_lost (get - av)] else []
    let stored := kfifo_in m.fifo data (min get av)
    (bcm2708_midi_activate_irq { m with fifo := stored.1 },
      [Call.rawmidi_transmit av get] ++ lost
        ++ [Call.fifo_in (data.take stored.2), Call.activate_irq])

/-- The function `bcm2708_midi_init_fifo`: `kfifo_alloc(&midi->fifo, FIFO_SIZE *
sizeof(unsigned char), GFP_KERNEL)`; a failed allocation is returned as the error. -/
def bcm2708_midi_init_fifo (m : bcm2708_midi) (nomem : Bool) : Except Int bcm2708_midi :=
  match kfifo_alloc (FIFO_SIZE * 1) nomem with
  | Except.error err => Except.error err
  | Except.ok fifo => Except.ok { m with fifo := fifo }

/-! ## Sequences of calls -/

/-- The entry points the host may call (`bcm2708_midi_ops` and the interrupt line). -/
inductive Op where
  | midi_open
  | midi_close
  | midi_trigger (substream : Nat → List Nat)
  | midi_interrupt

/-- One call of an entry point. -/
def step (op : Op) (m : bcm2708_midi) : bcm2708_midi × List Call :=
  match op with
  | Op.midi_open => bcm2708_midi_open m
  | Op.midi_close => bcm2708_midi_close m
  | Op.midi_trigger substream => bcm2708_midi_trigger substream m
  | Op.midi_interrupt => bcm2708_midi_interrupt m

/-- A finite sequence of calls, made one after the other; the logs are concatenated. -/
def run : List Op → bcm2708_midi → bcm2708_midi × List Call
  | [], m => (m, [])
  | op :: ops, m =>
    ((run ops (step op m).1).1, (step op m).2 ++ (run ops (step op m).1).2)

/-- The bytes handed to `bcm2708_midi_transmit` by the calls of a log, in order. -/
def sent : List Call → List Nat
  | [] => []
  | Call.transmit written :: cs => written ++ sent cs
  | _ :: cs => sent cs

/-- The bytes enqueued by the `kfifo_in` calls of a log, in order. -/
def enqueued : List Call → List Nat
  | [] => []
  | Call.fifo_in accepted :: cs => accepted ++ enqueued cs
  | _ :: cs => enqueued cs

/-- The messages about lost data (`dev_err`) of a log, in order. -/
def reported : List Call → List Call
  | [] => []
  | Call.dev_err_dropout :: cs => Call.dev_err_dropout :: reported cs
  | Call.dev_err_samples_lost n :: cs => Call.dev_err_samples_lost n :: reported cs
  | _ :: cs => reported cs

/-- The state after `k` consecutive calls of `bcm2708_midi_interrupt`, and their log. -/
def drain : Nat → bcm2708_midi → bcm2708_midi × List Call
  | 0, m => (m, [])
  | k + 1, m =>
    ((drain k (bcm2708_midi_interrupt m).1).1,
      (bcm2708_midi_interrupt m).2 ++ (drain k (bcm2708_midi_interrupt m).1).2)

/-! ## Basic facts about the fifo operations -/

theorem kfifo_in_len_le (fifo : kfifo) (data : List Nat) (n : Nat)
    (h : kfifo_len fifo ≤ fifo.size) :
    kfifo_len (kfifo_in fifo data n).1 ≤ fifo.size := by
  simp only [kfifo_in, kfifo_len, kfifo_avail, List.length_append, List.length_take] at *
  omega

theorem kfifo_out_len_le (fifo : kfifo) (n : Nat) :
    kfifo_len (kfifo_out fifo n).1 ≤ kfifo_len fifo := by
  simp only [kfifo_out, kfifo_len, List.length_drop]
  omega

/-- The fifo is well formed: its occupancy does not exceed its capacity `FIFO_SIZE`. -/
def fifo_ok (m : bcm2708_midi) : Prop :=
  m.fifo.size = FIFO_SIZE ∧ kfifo_len m.fifo ≤ FIFO_SIZE

theorem step_fifo_ok (op : Op) (m : bcm2708_midi) (h : fifo_ok m) :
    fifo_ok (step op m).1 := by
  obtain ⟨hs, hl⟩ := h
  cases op with
  | midi_open =>
    exact ⟨hs, by simp [step, bcm2708_midi_open, kfifo_reset, kfifo_len]⟩
  | midi_close => exact ⟨hs, hl⟩
  | midi_trigger substream =>
    simp only [step, bcm2708_midi_trigger]
    split
    · exact ⟨hs, hl⟩
    · refine ⟨hs, ?_⟩
      have := kfifo_in_len_le m.fifo (substream (kfifo_avail m.fifo))
        (min (substream (kfifo_avail m.fifo)).length (kfifo_avail m.fifo)) (by omega)
      simpa [bcm2708_midi_activate_irq, hs] using this
  | midi_interrupt =>
    simp only [step, bcm2708_midi_interrupt]
    split
    · refine ⟨hs, ?_⟩
      have := kfifo_out_len_le m.fifo 8
      simp only at this ⊢
      omega
    · exact ⟨hs, hl⟩

theorem run_fifo_ok (ops : List Op) (m : bcm2708_midi) (h : fifo_ok m) :
    fifo_ok (run ops m).1 := by
  induction ops generalizing m with
  | nil => exact h
  | cons op ops ih => exact ih _ (step_fifo_ok op m h)

theorem init_fifo_ok (m m0 : bcm2708_midi) (nomem : Bool)
    (h : bcm2708_midi_init_fifo m nomem = Except.ok m0) : fifo_ok m0 ∧ kfifo_len m0.fifo = 0 := by
  cases nomem with
  | true => simp [bcm2708_midi_init_fifo, kfifo_alloc] at h
  | false =>
    simp only [bcm2708_midi_init_fifo, kfifo_alloc, Bool.false_eq_true, if_false,
      Except.ok.injEq] at h
    subst h
    simp [fifo_ok, kfifo_len, FIFO_SIZE]

/-! ## C1: occupancy invariant -/

/-- C1. Occupancy invariant: starting from the empty fifo of capacity `FIFO_SIZE = 128`
that `bcm2708_midi_init_fifo` creates, after every call of every finite sequence of
open, close, trigger and interrupt calls (the state after the first `k` calls, for
every `k`) the occupancy is between 0 and 128.  It holds whatever the submission source
returns, so in particular for a source that returns at most the requested count. -/
theorem occupancy_invariant (m m0 : bcm2708_midi) (nomem : Bool) (ops : List Op) (k : Nat)
    (h : bcm2708_midi_init_fifo m nomem = Except.ok m0) :
    kfifo_len m0.fifo = 0 ∧ m0.fifo.size = 128 ∧
      0 ≤ kfifo_len (run (ops.take k) m0).1.fifo ∧
      kfifo_len (run (ops.take k) m0).1.fifo ≤ 128 := by
  obtain ⟨hok, h0⟩ := init_fifo_ok m m0 nomem h
  exact ⟨h0, hok.1, Nat.zero_le _, (run_fifo_ok (ops.take k) m0 hok).2⟩

/-- A sample of the witness of C1: any state before the fifo is created. -/
def sample_unallocated : bcm2708_midi := { fifo := { size := 0, buf := [] }, uart1ier := 0 }

/-- A sample of the witness of C1: the state once the fifo is created. -/
def sample_allocated : bcm2708_midi := { fifo := { size := 128, buf := [] }, uart1ier := 0 }

/-- A sample of the witness of C1: a session offering 200 bytes and taking two interrupts. -/
def sample_session : List Op :=
  [Op.midi_open, Op.midi_trigger (snd_rawmidi_transmit (List.range 200)),
    Op.midi_interrupt, Op.midi_interrupt, Op.midi_close]

/-- Witness of C1: the fifo created by `bcm2708_midi_init_fifo`, then a session that
offers 200 bytes to the empty fifo and takes two interrupts. -/
theorem occupancy_invariant_witness :
    bcm2708_midi_init_fifo sample_unallocated false = Except.ok sample_allocated ∧
      (kfifo_len sample_allocated.fifo = 0 ∧ sample_allocated.fifo.size = 128 ∧
        0 ≤ kfifo_len (run (sample_session.take 4) sample_allocated).1.fifo ∧
        kfifo_len (run (sample_session.take 4) sample_allocated).1.fifo ≤ 128) :=
  ⟨rfl, occupancy_invariant sample_unallocated sample_allocated false sample_session 4 rfl⟩

/-! ## C2: FIFO law -/

theorem sent_append (a b : List Call) : sent (a ++ b) = sent a ++ sent b := by
  induction a with
  | nil => rfl
  | cons c cs ih => cases c <;> simp [sent, ih]

theorem enqueued_append (a b : List Call) : enqueued (a ++ b) = enqueued a ++ enqueued b := by
  induction a with
  | nil => rfl
  | cons c cs ih => cases c <;> simp [enqueued, ih]

theorem transmit_all (data : List Nat) : bcm2708_midi_transmit data data.length = data := by
  apply List.ext_getElem
  · simp [bcm2708_midi_transmit]
  · intro i h1 h2
    simp [bcm2708_midi_transmit, List.getElem?_eq_getElem h2]

theorem take_length_take (data : List Nat) (k : Nat) :
    data.take (data.take k).length = data.take k := by
  rw [List.length_take]
  rcases Nat.le_total k data.length with h | h
  · rw [Nat.min_eq_left h]
  · rw [Nat.min_eq_right h, List.take_of_length_le h, List.take_of_length_le (le_refl _)]

/-- The bytes a trigger call logs as enqueued are the bytes appended to the fifo. -/
theorem trigger_balance (substream : Nat → List Nat) (m : bcm2708_midi) :
    m.fifo.buf ++ enqueued (bcm2708_midi_trigger substream m).2
      = sent (bcm2708_midi_trigger substream m).2
        ++ (bcm2708_midi_trigger substream m).1.fifo.buf := by
  simp only [bcm2708_midi_trigger]
  split
  · simp [enqueued, sent]
  · split <;>
      simp [enqueued, sent, kfifo_in, bcm2708_midi_activate_irq, take_length_take]

/-- The bytes an interrupt call hands to the sink are the bytes removed from the fifo. -/
theorem interrupt_balance (m : bcm2708_midi) :
    m.fifo.buf ++ enqueued (bcm2708_midi_interrupt m).2
      = sent (bcm2708_midi_interrupt m).2 ++ (bcm2708_midi_interrupt m).1.fifo.buf := by
  simp only [bcm2708_midi_interrupt]
  split
  · simp only [kfifo_out, transmit_all]
    simp [enqueued, sent]
  · simp [enqueued, sent, bcm2708_midi_deactivate_irq]

theorem run_balance (ops : List Op) (m : bcm2708_midi)
    (h : ∀ op ∈ ops, op ≠ Op.midi_open) :
    m.fifo.buf ++ enqueued (run ops m).2 = sent (run ops m).2 ++ (run ops m).1.fifo.buf := by
  induction ops generalizing m with
  | nil => simp [run, enqueued, sent]
  | cons op ops ih =>
    have hstep : m.fifo.buf ++ enqueued (step op m).2
        = sent (step op m).2 ++ (step op m).1.fifo.buf := by
      cases op with
      | midi_open => exact absurd rfl (h _ (List.mem_cons_self _ _))
      | midi_close => simp [step, bcm2708_midi_close, enqueued, sent]
      | midi_trigger substream => exact trigger_balance substream m
      | midi_interrupt => exact interrupt_balance m
    have hrest := ih (step op m).1 (fun o ho => h o (List.mem_cons_of_mem _ ho))
    simp only [run, enqueued_append, sent_append]
    rw [← List.append_assoc, hstep, List.append_assoc, hrest, List.append_assoc]

/-- C2. FIFO law: after `bcm2708_midi_open`, for every sequence of trigger, interrupt
(and close) calls with no further open, the bytes handed to `bcm2708_midi_transmit`,
concatenated in call order, followed by the bytes still queued, are exactly the bytes
enqueued by the trigger calls, concatenated in call order; hence the transmitted bytes
are a prefix of the enqueued bytes: nothing is reordered, duplicated or skipped. -/
theorem fifo_law (m : bcm2708_midi) (ops : List Op)
    (h : ∀ op ∈ ops, op ≠ Op.midi_open) :
    sent (run ops (bcm2708_midi_open m).1).2
        ++ (run ops (bcm2708_midi_open m).1).1.fifo.buf
      = enqueued (run ops (bcm2708_midi_open m).1).2 ∧
    sent (run ops (bcm2708_midi_open m).1).2
      <+: enqueued (run ops (bcm2708_midi_open m).1).2 := by
  have hb := run_balance ops (bcm2708_midi_open m).1 h
  have h0 : (bcm2708_midi_open m).1.fifo.buf = [] := rfl
  rw [h0, List.nil_append] at hb
  exact ⟨hb.symm, ⟨_, hb.symm⟩⟩

/-- A sample of the witness of C2: two triggers interleaved with three interrupts. -/
def sample_interleaving : List Op :=
  [Op.midi_trigger (snd_rawmidi_transmit [1, 2, 3, 4, 5, 6, 7, 8, 9, 10]),
    Op.midi_interrupt,
    Op.midi_trigger (snd_rawmidi_transmit [11, 12, 13]),
    Op.midi_interrupt, Op.midi_interrupt]

theorem sample_interleaving_no_open : ∀ op ∈ sample_interleaving, op ≠ Op.midi_open := by
  intro op hop
  simp only [sample_interleaving, List.mem_cons, List.mem_singleton, List.not_mem_nil,
    or_false] at hop
  rcases hop with rfl | rfl | rfl | rfl | rfl <;> simp

/-- Witness of C2: a session left with three bytes queued; ten bytes, then three more, are
enqueued while interrupts take out eight, five and none. -/
theorem fifo_law_witness :
    (∀ op ∈ sample_interleaving, op ≠ Op.midi_open) ∧
      (sent (run sample_interleaving
            (bcm2708_midi_open { fifo := { size := 128, buf := [7, 7, 7] }, uart1ier := 2 }).1).2
          ++ (run sample_interleaving
            (bcm2708_midi_open
              { fifo := { size := 128, buf := [7, 7, 7] }, uart1ier := 2 }).1).1.fifo.buf
        = enqueued (run sample_interleaving
            (bcm2708_midi_open { fifo := { size := 128, buf := [7, 7, 7] }, uart1ier := 2 }).1).2 ∧
      sent (run sample_interleaving
            (bcm2708_midi_open { fifo := { size := 128, buf := [7, 7, 7] }, uart1ier := 2 }).1).2
        <+: enqueued (run sample_interleaving
            (bcm2708_midi_open
              { fifo := { size := 128, buf := [7, 7, 7] }, uart1ier := 2 }).1).2) :=
  ⟨sample_interleaving_no_open,
    fifo_law { fifo := { size := 128, buf := [7, 7, 7] }, uart1ier := 2 } sample_interleaving
      sample_interleaving_no_open⟩

/-! ## C3: dropout accounting when the producer holds more than fits -/

/-- With the submission source of the spec, which never returns more than the requested
count, the guard `av < get` of `bcm2708_midi_trigger` is never true: the only message a
trigger call can log is the dropout message of the full fifo. -/
theorem trigger_reports (pending : List Nat) (m : bcm2708_midi) :
    reported (bcm2708_midi_trigger (snd_rawmidi_transmit pending) m).2
      = if kfifo_avail m.fifo = 0 then [Call.dev_err_dropout] else [] := by
  simp only [bcm2708_midi_trigger]
  split
  · rfl
  · have hle : ¬ kfifo_avail m.fifo
        < (snd_rawmidi_transmit pending (kfifo_avail m.fifo)).length := by
      simp only [snd_rawmidi_transmit, List.length_take]
      omega
    simp [hle, reported]

set_option maxRecDepth 8000 in
/-- C3, counterexample. The scenario of the claim: the empty 128-byte fifo, gate
disarmed, and a producer holding the 200 bytes 0..199.  The trigger asks the source for
128 bytes and gets 128, enqueues the first 128 bytes in order and arms the gate, and logs
no message: 72 bytes are not reported as dropped. -/
theorem trigger_overrun_counterexample :
    kfifo_avail sample_allocated.fifo = 128 ∧
    (List.range 200).length = 200 ∧
    (bcm2708_midi_trigger (snd_rawmidi_transmit (List.range 200)) sample_allocated).1.fifo.buf
      = List.range 128 ∧
    armed (bcm2708_midi_trigger (snd_rawmidi_transmit (List.range 200)) sample_allocated).1
      = true ∧
    (bcm2708_midi_trigger (snd_rawmidi_transmit (List.range 200)) sample_allocated).2
      = [Call.rawmidi_transmit 128 128, Call.fifo_in (List.range 128), Call.activate_irq] ∧
    reported (bcm2708_midi_trigger (snd_rawmidi_transmit (List.range 200)) sample_allocated).2
      = [] ∧
    ¬ (Call.dev_err_samples_lost 72
        ∈ (bcm2708_midi_trigger (snd_rawmidi_transmit (List.range 200)) sample_allocated).2) :=
  ⟨rfl, rfl, rfl, rfl, rfl, rfl, by decide⟩

/-- C3, amended. For every trigger call made with free capacity `av > 0` while the
producer holds `n > av` pending bytes: the trigger asks the source for exactly `av`
bytes and gets `av`, enqueues exactly the first `av` pending bytes in order and arms the
gate, and reports nothing as dropped; the other `n - av` bytes are not taken from the
producer.  The message "samples lost", with the count `get - av`, is logged exactly when
the source returns more bytes than the `av` requested (any source `substream`). -/
theorem trigger_overrun_not_reported (pending : List Nat) (substream : Nat → List Nat)
    (m : bcm2708_midi) (hav : 0 < kfifo_avail m.fifo)
    (hn : kfifo_avail m.fifo < pending.length) :
    (bcm2708_midi_trigger (snd_rawmidi_transmit pending) m).2
      = [Call.rawmidi_transmit (kfifo_avail m.fifo) (kfifo_avail m.fifo),
          Call.fifo_in (pending.take (kfifo_avail m.fifo)), Call.activate_irq] ∧
    (bcm2708_midi_trigger (snd_rawmidi_transmit pending) m).1.fifo.buf
      = m.fifo.buf ++ pending.take (kfifo_avail m.fifo) ∧
    (pending.take (kfifo_avail m.fifo)).length = kfifo_avail m.fifo ∧
    enqueued (bcm2708_midi_trigger (snd_rawmidi_transmit pending) m).2
        ++ pending.drop (kfifo_avail m.fifo) = pending ∧
    armed (bcm2708_midi_trigger (snd_rawmidi_transmit pending) m).1 = true ∧
    reported (bcm2708_midi_trigger (snd_rawmidi_transmit pending) m).2 = [] ∧
    reported (bcm2708_midi_trigger substream m).2
      = (if kfifo_avail m.fifo < (substream (kfifo_avail m.fifo)).length then
          [Call.dev_err_samples_lost
            ((substream (kfifo_avail m.fifo)).length - kfifo_avail m.fifo)]
        else []) := by
  have hne : ¬ kfifo_avail m.fifo = 0 := by omega
  have hlen : (pending.take (kfifo_avail m.fifo)).length = kfifo_avail m.fifo := by
    rw [List.length_take]
    omega
  have htt : (pending.take (kfifo_avail m.fifo)).take (kfifo_avail m.fifo)
      = pending.take (kfifo_avail m.fifo) := by
    rw [List.take_take, Nat.min_self]
  have hlog : (bcm2708_midi_trigger (snd_rawmidi_transmit pending) m).2
      = [Call.rawmidi_transmit (kfifo_avail m.fifo) (kfifo_avail m.fifo),
          Call.fifo_in (pending.take (kfifo_avail m.fifo)), Call.activate_irq] := by
    simp only [bcm2708_midi_trigger, if_neg hne, snd_rawmidi_transmit, kfifo_in, hlen,
      Nat.min_self, htt, if_neg (Nat.lt_irrefl _)]
    rfl
  have hbuf : (bcm2708_midi_trigger (snd_rawmidi_transmit pending) m).1.fifo.buf
      = m.fifo.buf ++ pending.take (kfifo_avail m.fifo) := by
    simp only [bcm2708_midi_trigger, if_neg hne, snd_rawmidi_transmit, kfifo_in, hlen,
      Nat.min_self, htt, bcm2708_midi_activate_irq]
  refine ⟨hlog, hbuf, hlen, ?_, ?_, ?_, ?_⟩
  · rw [hlog]
    simp [enqueued]
  · simp only [bcm2708_midi_trigger, if_neg hne]
    rfl
  · rw [hlog]
    rfl
  · simp only [bcm2708_midi_trigger, if_neg hne]
    split <;> simp [reported]

set_option maxRecDepth 8000 in
/-- Witness of C3 amended: the empty 128-byte fifo and a producer holding 200 bytes; a
source that hands over all 200 bytes at once is the one for which 72 lost samples are
logged. -/
theorem trigger_overrun_not_reported_witness :
    (0 < kfifo_avail sample_allocated.fifo ∧
      kfifo_avail sample_allocated.fifo < (List.range 200).length) ∧
    (bcm2708_midi_trigger (snd_rawmidi_transmit (List.range 200)) sample_allocated).2
      = [Call.rawmidi_transmit (kfifo_avail sample_allocated.fifo)
            (kfifo_avail sample_allocated.fifo),
          Call.fifo_in ((List.range 200).take (kfifo_avail sample_allocated.fifo)),
          Call.activate_irq] ∧
    reported (bcm2708_midi_trigger (snd_rawmidi_transmit (List.range 200)) sample_allocated).2
      = [] ∧
    reported (bcm2708_midi_trigger (fun _ => List.range 200) sample_allocated).2
      = (if kfifo_avail sample_allocated.fifo
            < ((fun _ => List.range 200) (kfifo_avail sample_allocated.fifo)).length then
          [Call.dev_err_samples_lost
            (((fun _ => List.range 200) (kfifo_avail sample_allocated.fifo)).length
              - kfifo_avail sample_allocated.fifo)]
        else []) :=
  ⟨⟨by decide, by decide⟩,
    (trigger_overrun_not_reported (List.range 200) (fun _ => List.range 200) sample_allocated
      (by decide) (by decide)).1,
    (trigger_overrun_not_reported (List.range 200) (fun _ => List.range 200) sample_allocated
      (by decide) (by decide)).2.2.2.2.2.1,
    (trigger_overrun_not_reported (List.range 200) (fun _ => List.range 200) sample_allocated
      (by decide) (by decide)).2.2.2.2.2.2⟩

/-! ## C4: arming rule of the trigger -/

/-- C4, counterexample. The empty 128-byte fifo with the gate disarmed, and a source that
returns 0 bytes: nothing is enqueued and the fifo is unchanged, yet
`bcm2708_midi_activate_irq` is called and the gate goes from disarmed to armed; so
"armed if and only if a byte was enqueued" fails. -/
theorem trigger_arming_counterexample :
    kfifo_avail sample_allocated.fifo = 128 ∧
    snd_rawmidi_transmit [] 128 = [] ∧
    enqueued (bcm2708_midi_trigger (snd_rawmidi_transmit []) sample_allocated).2 = [] ∧
    (bcm2708_midi_trigger (snd_rawmidi_transmit []) sample_allocated).1.fifo
      = sample_allocated.fifo ∧
    Call.activate_irq ∈ (bcm2708_midi_trigger (snd_rawmidi_transmit []) sample_allocated).2 ∧
    armed sample_allocated = false ∧
    armed (bcm2708_midi_trigger (snd_rawmidi_transmit []) sample_allocated).1 = true ∧
    ¬ (Call.activate_irq ∈ (bcm2708_midi_trigger (snd_rawmidi_transmit []) sample_allocated).2
        ↔ enqueued (bcm2708_midi_trigger (snd_rawmidi_transmit []) sample_allocated).2 ≠ []) := by
  decide

/-- C4, amended. For every trigger call with free capacity above 0, whatever the source
returns: the first `av` bytes the source returned are appended to the fifo, and
`bcm2708_midi_activate_irq` is called exactly once, so the gate is armed after the call,
whether or not a byte was enqueued.  When the source returns 0 bytes nothing is enqueued
and the fifo is unchanged, and the gate is armed all the same. -/
theorem trigger_arms_when_room (substream : Nat → List Nat) (m : bcm2708_midi)
    (h : 0 < kfifo_avail m.fifo) :
    (bcm2708_midi_trigger substream m).2.count Call.activate_irq = 1 ∧
    armed (bcm2708_midi_trigger substream m).1 = true ∧
    enqueued (bcm2708_midi_trigger substream m).2
      = (substream (kfifo_avail m.fifo)).take (kfifo_avail m.fifo) ∧
    (bcm2708_midi_trigger substream m).1.fifo.buf
      = m.fifo.buf ++ (substream (kfifo_avail m.fifo)).take (kfifo_avail m.fifo) ∧
    (substream (kfifo_avail m.fifo) = [] →
      (bcm2708_midi_trigger substream m).1.fifo = m.fifo ∧
      enqueued (bcm2708_midi_trigger substream m).2 = [] ∧
      Call.activate_irq ∈ (bcm2708_midi_trigger substream m).2) := by
  have hne : ¬ kfifo_avail m.fifo = 0 := by omega
  have htake : List.take (min (min (substream (kfifo_avail m.fifo)).length (kfifo_avail m.fifo))
        (kfifo_avail m.fifo)) (substream (kfifo_avail m.fifo))
      = List.take (kfifo_avail m.fifo) (substream (kfifo_avail m.fifo)) := by
    rcases Nat.le_total (substream (kfifo_avail m.fifo)).length (kfifo_avail m.fifo) with hl | hl
    · rw [Nat.min_eq_left hl, Nat.min_eq_left hl, List.take_of_length_le (le_refl _),
        List.take_of_length_le hl]
    · rw [Nat.min_eq_right hl, Nat.min_self]
  simp only [bcm2708_midi_trigger, if_neg hne, kfifo_in, htake, take_length_take]
  refine ⟨?_, rfl, ?_, rfl, ?_⟩
  · split <;> simp [List.count_cons]
  · split <;> simp [enqueued]
  · intro hnil
    rw [hnil]
    refine ⟨?_, ?_, ?_⟩
    · simp [bcm2708_midi_activate_irq]
    · simp [enqueued]
    · simp

/-- Witness of C4 amended: a fifo holding 3 bytes, gate disarmed, and a source with 2
bytes. -/
theorem trigger_arms_when_room_witness :
    0 < kfifo_avail ({ size := 128, buf := [1, 2, 3] } : kfifo) ∧
    (bcm2708_midi_trigger (snd_rawmidi_transmit [4, 5])
        { fifo := { size := 128, buf := [1, 2, 3] }, uart1ier := 0 }).1.fifo.buf
      = [1, 2, 3] ++ (snd_rawmidi_transmit [4, 5] 125).take 125 :=
  ⟨by decide,
    (trigger_arms_when_room (snd_rawmidi_transmit [4, 5])
      { fifo := { size := 128, buf := [1, 2, 3] }, uart1ier := 0 } (by decide)).2.2.2.1⟩

/-! ## C5: trigger on a full fifo -/

/-- A sample state: the 128-byte fifo full with the bytes 0..127, gate armed. -/
def sample_full : bcm2708_midi :=
  { fifo := { size := 128, buf := List.range 128 }, uart1ier := IER_TX_ENABLE }

/-- C5. Trigger on a full fifo: in every state whose fifo has free capacity 0, whatever
the source would return, `bcm2708_midi_trigger` logs the dropout message and nothing
else, so `snd_rawmidi_transmit` is not called, and the state after the call (fifo
contents and UART1IER) is the state before it. -/
theorem trigger_on_full (substream : Nat → List Nat) (m : bcm2708_midi)
    (h : kfifo_avail m.fifo = 0) :
    (bcm2708_midi_trigger substream m).2 = [Call.dev_err_dropout] ∧
    (bcm2708_midi_trigger substream m).1 = m ∧
    (bcm2708_midi_trigger substream m).1.fifo.buf = m.fifo.buf ∧
    armed (bcm2708_midi_trigger substream m).1 = armed m ∧
    (∀ count ret, Call.rawmidi_transmit count ret ∉ (bcm2708_midi_trigger substream m).2) ∧
    enqueued (bcm2708_midi_trigger substream m).2 = [] := by
  simp [bcm2708_midi_trigger, h, enqueued]

set_option maxRecDepth 8000 in
/-- Witness of C5: the full 128-byte fifo (occupancy 128) with the gate armed, and a
producer holding 200 bytes. -/
theorem trigger_on_full_witness :
    kfifo_len sample_full.fifo = 128 ∧ kfifo_avail sample_full.fifo = 0 ∧
    (bcm2708_midi_trigger (snd_rawmidi_transmit (List.range 200)) sample_full).2
      = [Call.dev_err_dropout] ∧
    (bcm2708_midi_trigger (snd_rawmidi_transmit (List.range 200)) sample_full).1
      = sample_full :=
  ⟨by decide, by decide,
    (trigger_on_full (snd_rawmidi_transmit (List.range 200)) sample_full (by decide)).1,
    (trigger_on_full (snd_rawmidi_transmit (List.range 200)) sample_full (by decide)).2.1⟩

/-! ## C6: session reset -/

/-- C6, counterexample. A previous session left 3 bytes queued and the gate armed:
after `bcm2708_midi_open` the occupancy is 0 but the gate is still armed. -/
theorem open_leaves_gate_counterexample :
    armed { fifo := { size := 128, buf := [1, 2, 3] }, uart1ier := IER_TX_ENABLE } = true ∧
    kfifo_len
      (bcm2708_midi_open
        { fifo := { size := 128, buf := [1, 2, 3] }, uart1ier := IER_TX_ENABLE }).1.fifo = 0 ∧
    armed
      (bcm2708_midi_open
        { fifo := { size := 128, buf := [1, 2, 3] }, uart1ier := IER_TX_ENABLE }).1 = true := by
  decide

/-- C6, amended. For every prior state, after `bcm2708_midi_open` the occupancy is 0 and
the capacity is kept, and the gate is exactly as it was before the call: open makes no
call to arm or disarm and leaves UART1IER alone, so the gate is disarmed after open if
it was disarmed before, and still armed if a previous session left it armed. -/
theorem open_resets_fifo_only (m : bcm2708_midi) :
    kfifo_len (bcm2708_midi_open m).1.fifo = 0 ∧
    (bcm2708_midi_open m).1.fifo.size = m.fifo.size ∧
    (bcm2708_midi_open m).1.uart1ier = m.uart1ier ∧
    armed (bcm2708_midi_open m).1 = armed m ∧
    (bcm2708_midi_open m).2 = [] ∧
    (bcm2708_midi_close m).1 = m :=
  ⟨rfl, rfl, rfl, rfl, rfl, rfl⟩

/-! ## C7: disarm on empty -/

/-- C7, counterexample. One byte queued and the gate armed: `bcm2708_midi_interrupt`
transmits the byte and leaves the fifo empty, and the gate is still armed after that
invocation. -/
theorem drain_last_byte_counterexample :
    kfifo_len
      (bcm2708_midi_interrupt
        { fifo := { size := 128, buf := [60] }, uart1ier := IER_TX_ENABLE }).1.fifo = 0 ∧
    (bcm2708_midi_interrupt
        { fifo := { size := 128, buf := [60] }, uart1ier := IER_TX_ENABLE }).2
      = [Call.transmit [60]] ∧
    armed
      (bcm2708_midi_interrupt
        { fifo := { size := 128, buf := [60] }, uart1ier := IER_TX_ENABLE }).1 = true := by
  decide

theorem interrupt_on_empty (m : bcm2708_midi) (h : kfifo_len m.fifo = 0) :
    bcm2708_midi_interrupt m = (bcm2708_midi_deactivate_irq m, [Call.deactivate_irq]) := by
  simp [bcm2708_midi_interrupt, kfifo_is_empty, h]

theorem interrupt_on_nonempty (m : bcm2708_midi) (h : 1 ≤ kfifo_len m.fifo) :
    bcm2708_midi_interrupt m
      = ({ m with fifo := { m.fifo with buf := m.fifo.buf.drop 8 } },
          [Call.transmit (m.fifo.buf.take 8)]) := by
  have hne : ¬ kfifo_len m.fifo = 0 := by omega
  simp only [bcm2708_midi_interrupt, kfifo_is_empty, kfifo_out, transmit_all]
  simp [hne]

/-- C7, amended. For every state, if an invocation of `bcm2708_midi_interrupt` leaves the
fifo empty, then the next invocation transmits nothing, leaves the fifo as it is and
disarms the gate; after the invocation itself the gate is disarmed exactly when the fifo
was already empty before it or the gate was already disarmed before it. -/
theorem disarm_on_next_interrupt (m : bcm2708_midi)
    (h : kfifo_len (bcm2708_midi_interrupt m).1.fifo = 0) :
    armed (bcm2708_midi_interrupt (bcm2708_midi_interrupt m).1).1 = false ∧
    (bcm2708_midi_interrupt (bcm2708_midi_interrupt m).1).1.fifo
      = (bcm2708_midi_interrupt m).1.fifo ∧
    (bcm2708_midi_interrupt (bcm2708_midi_interrupt m).1).2 = [Call.deactivate_irq] ∧
    (armed (bcm2708_midi_interrupt m).1 = false
      ↔ (kfifo_len m.fifo = 0 ∨ armed m = false)) := by
  refine ⟨?_, ?_, ?_, ?_⟩
  · rw [interrupt_on_empty _ h]; rfl
  · rw [interrupt_on_empty _ h]; rfl
  · rw [interrupt_on_empty _ h]
  · rcases Nat.eq_zero_or_pos (kfifo_len m.fifo) with h0 | hpos
    · rw [interrupt_on_empty _ h0]
      simp [h0, armed, bcm2708_midi_deactivate_irq, IER_DISABLE, IER_TX_ENABLE]
    · have hne : ¬ kfifo_len m.fifo = 0 := by omega
      rw [interrupt_on_nonempty _ hpos]
      simp [hne, armed]

/-- Witness of C7 amended: five bytes queued, gate armed; the first interrupt empties the
fifo, the second disarms the gate. -/
theorem disarm_on_next_interrupt_witness :
    kfifo_len
      (bcm2708_midi_interrupt
        { fifo := { size := 128, buf := [1, 2, 3, 4, 5] }, uart1ier := IER_TX_ENABLE }).1.fifo
      = 0 ∧
    armed
      (bcm2708_midi_interrupt
        (bcm2708_midi_interrupt
          { fifo := { size := 128, buf := [1, 2, 3, 4, 5] },
            uart1ier := IER_TX_ENABLE }).1).1 = false :=
  ⟨by decide,
    (disarm_on_next_interrupt
      { fifo := { size := 128, buf := [1, 2, 3, 4, 5] }, uart1ier := IER_TX_ENABLE }
      (by decide)).1⟩

/-! ## C8: drain on a non-empty fifo -/

/-- C8. Drain on a non-empty fifo: in every state with occupancy `n >= 1`, one call of
`bcm2708_midi_interrupt` makes exactly one call of `bcm2708_midi_transmit`, with the first
`min(8, n)` queued bytes in their queued order, leaves the remaining `n - min(8, n)` bytes
queued in order, and does not touch the gate (UART1IER is unchanged). -/
theorem drain_chunk (m : bcm2708_midi) (h : 1 ≤ kfifo_len m.fifo) :
    (bcm2708_midi_interrupt m).2
      = [Call.transmit (m.fifo.buf.take (min 8 (kfifo_len m.fifo)))] ∧
    (bcm2708_midi_interrupt m).1.fifo.buf = m.fifo.buf.drop (min 8 (kfifo_len m.fifo)) ∧
    kfifo_len (bcm2708_midi_interrupt m).1.fifo
      = kfifo_len m.fifo - min 8 (kfifo_len m.fifo) ∧
    sent (bcm2708_midi_interrupt m).2 ++ (bcm2708_midi_interrupt m).1.fifo.buf = m.fifo.buf ∧
    (bcm2708_midi_interrupt m).1.fifo.size = m.fifo.size ∧
    (bcm2708_midi_interrupt m).1.uart1ier = m.uart1ier ∧
    armed (bcm2708_midi_interrupt m).1 = armed m := by
  have htake : m.fifo.buf.take (min 8 (kfifo_len m.fifo)) = m.fifo.buf.take 8 := by
    rcases Nat.le_total 8 (kfifo_len m.fifo) with hl | hl
    · rw [Nat.min_eq_left hl]
    · rw [Nat.min_eq_right hl, kfifo_len, List.take_of_length_le (le_refl _),
        List.take_of_length_le hl]
  have hdrop : m.fifo.buf.drop (min 8 (kfifo_len m.fifo)) = m.fifo.buf.drop 8 := by
    rcases Nat.le_total 8 (kfifo_len m.fifo) with hl | hl
    · rw [Nat.min_eq_left hl]
    · rw [Nat.min_eq_right hl, kfifo_len, List.drop_of_length_le (le_refl _),
        List.drop_of_length_le hl]
  rw [interrupt_on_nonempty m h, htake, hdrop]
  refine ⟨rfl, rfl, ?_, ?_, rfl, rfl, rfl⟩
  · simp only [kfifo_len, List.length_drop]
    omega
  · simp [sent]

set_option maxRecDepth 8000 in
/-- Witness of C8: the full fifo 0..127 with the gate armed; one interrupt transmits the
bytes 0..7, the occupancy goes from 128 to 120 and the gate stays armed. -/
theorem drain_chunk_witness :
    kfifo_len sample_full.fifo = 128 ∧ armed sample_full = true ∧
    (bcm2708_midi_interrupt sample_full).2 = [Call.transmit [0, 1, 2, 3, 4, 5, 6, 7]] ∧
    kfifo_len (bcm2708_midi_interrupt sample_full).1.fifo = 120 ∧
    armed (bcm2708_midi_interrupt sample_full).1 = true :=
  ⟨by decide, by decide,
    (drain_chunk sample_full (by decide)).1,
    (drain_chunk sample_full (by decide)).2.2.1,
    (drain_chunk sample_full (by decide)).2.2.2.2.2.2⟩

/-! ## C9: drain on an empty fifo -/

/-- C9. Drain on an empty fifo: in every state with occupancy 0, one call of
`bcm2708_midi_interrupt` calls `bcm2708_midi_deactivate_irq` and nothing else, so no byte
is handed to the sink and `bcm2708_midi_transmit` is not called; the gate is disarmed
after the call and the fifo is still empty. -/
theorem drain_on_empty (m : bcm2708_midi) (h : kfifo_len m.fifo = 0) :
    (bcm2708_midi_interrupt m).2 = [Call.deactivate_irq] ∧
    (bcm2708_midi_interrupt m).1.uart1ier = IER_DISABLE ∧
    armed (bcm2708_midi_interrupt m).1 = false ∧
    sent (bcm2708_midi_interrupt m).2 = [] ∧
    (∀ written, Call.transmit written ∉ (bcm2708_midi_interrupt m).2) ∧
    (bcm2708_midi_interrupt m).1.fifo = m.fifo ∧
    kfifo_len (bcm2708_midi_interrupt m).1.fifo = 0 := by
  rw [interrupt_on_empty m h]
  refine ⟨rfl, rfl, rfl, rfl, ?_, rfl, h⟩
  intro written
  simp

/-- Witness of C9: the empty fifo with the gate armed. -/
theorem drain_on_empty_witness :
    kfifo_len ({ size := 128, buf := [] } : kfifo) = 0 ∧
    (bcm2708_midi_interrupt { fifo := { size := 128, buf := [] }, uart1ier := IER_TX_ENABLE })
      = ({ fifo := { size := 128, buf := [] }, uart1ier := IER_DISABLE },
          [Call.deactivate_irq]) ∧
    armed
      (bcm2708_midi_interrupt
        { fifo := { size := 128, buf := [] }, uart1ier := IER_TX_ENABLE }).1 = false :=
  ⟨rfl, rfl,
    (drain_on_empty { fifo := { size := 128, buf := [] }, uart1ier := IER_TX_ENABLE } rfl).2.2.1⟩

/-! ## C10: bounded drain to quiescence -/

theorem drain_add (a b : Nat) (m : bcm2708_midi) :
    drain (a + b) m
      = ((drain b (drain a m).1).1, (drain a m).2 ++ (drain b (drain a m).1).2) := by
  induction a generalizing m with
  | zero => simp [drain]
  | succ a ih =>
    rw [Nat.succ_add]
    simp only [drain, ih, List.append_assoc]

/-- Exactly `ceil(n / 8)` interrupts empty a fifo of occupancy `n`; the bytes transmitted
are the queued bytes in order and UART1IER is not touched. -/
theorem drain_exact (k : Nat) (m : bcm2708_midi) (h : (kfifo_len m.fifo + 7) / 8 = k) :
    (drain k m).1 = { m with fifo := { m.fifo with buf := [] } } ∧
    sent (drain k m).2 = m.fifo.buf := by
  induction k generalizing m with
  | zero =>
    have hnil : m.fifo.buf = [] := by
      apply List.eq_nil_of_length_eq_zero
      simp only [kfifo_len] at h
      omega
    refine ⟨?_, ?_⟩
    · simp only [drain]
      rw [← hnil]
    · simp [drain, sent, hnil]
  | succ k ih =>
    have hpos : 1 ≤ kfifo_len m.fifo := by omega
    have hrest : (kfifo_len ({ m with fifo := { m.fifo with buf := m.fifo.buf.drop 8 } } :
        bcm2708_midi).fifo + 7) / 8 = k := by
      simp only [kfifo_len, List.length_drop] at h ⊢
      omega
    obtain ⟨hstate, hsent⟩ := ih _ hrest
    simp only [drain, interrupt_on_nonempty m hpos, sent_append]
    refine ⟨?_, ?_⟩
    · rw [hstate]
    · rw [hsent]
      simp [sent]

/-- Once the fifo is empty every further interrupt only disarms the gate. -/
theorem drain_idle (j : Nat) (m : bcm2708_midi) (h : kfifo_len m.fifo = 0) :
    (drain (j + 1) m).1 = bcm2708_midi_deactivate_irq m ∧ sent (drain (j + 1) m).2 = [] := by
  induction j generalizing m with
  | zero => simp [drain, interrupt_on_empty m h, sent]
  | succ j ih =>
    have h1 : kfifo_len (bcm2708_midi_deactivate_irq m).fifo = 0 := h
    obtain ⟨hstate, hsent⟩ := ih (bcm2708_midi_deactivate_irq m) h1
    have hd : drain (j + 1 + 1) m
        = ((drain (j + 1) (bcm2708_midi_interrupt m).1).1,
            (bcm2708_midi_interrupt m).2 ++ (drain (j + 1) (bcm2708_midi_interrupt m).1).2) := rfl
    rw [hd, interrupt_on_empty m h]
    refine ⟨?_, ?_⟩
    · simp only [hstate]
      rfl
    · simp only [sent_append, hsent]
      rfl

/-- C10. Bounded drain to quiescence: for every state with occupancy `n <= 128` and the
gate armed, with no trigger in between, after exactly `ceil(n / 8) = (n + 7) / 8`
consecutive calls of `bcm2708_midi_interrupt` the fifo is empty, the sink has received
exactly the `n` queued bytes in order, and the gate is still armed; after one further
call, and after any number of calls beyond that, the fifo is empty and the gate is
disarmed and nothing more was sent; and `ceil(n / 8) + 1 <= 17`. -/
theorem drain_to_quiescence (m : bcm2708_midi) (hn : kfifo_len m.fifo ≤ 128)
    (ha : armed m = true) :
    kfifo_len (drain ((kfifo_len m.fifo + 7) / 8) m).1.fifo = 0 ∧
    sent (drain ((kfifo_len m.fifo + 7) / 8) m).2 = m.fifo.buf ∧
    armed (drain ((kfifo_len m.fifo + 7) / 8) m).1 = true ∧
    (∀ j, kfifo_len (drain ((kfifo_len m.fifo + 7) / 8 + 1 + j) m).1.fifo = 0 ∧
      armed (drain ((kfifo_len m.fifo + 7) / 8 + 1 + j) m).1 = false ∧
      sent (drain ((kfifo_len m.fifo + 7) / 8 + 1 + j) m).2 = m.fifo.buf) ∧
    (kfifo_len m.fifo + 7) / 8 + 1 ≤ 17 ∧
    kfifo_len (drain 17 m).1.fifo = 0 ∧ armed (drain 17 m).1 = false ∧
    sent (drain 17 m).2 = m.fifo.buf := by
  obtain ⟨hstate, hsent⟩ := drain_exact ((kfifo_len m.fifo + 7) / 8) m rfl
  have hafter : ∀ j, kfifo_len (drain ((kfifo_len m.fifo + 7) / 8 + 1 + j) m).1.fifo = 0 ∧
      armed (drain ((kfifo_len m.fifo + 7) / 8 + 1 + j) m).1 = false ∧
      sent (drain ((kfifo_len m.fifo + 7) / 8 + 1 + j) m).2 = m.fifo.buf := by
    intro j
    have hsplit : (kfifo_len m.fifo + 7) / 8 + 1 + j = (kfifo_len m.fifo + 7) / 8 + (j + 1) := by
      omega
    have hempty : kfifo_len (drain ((kfifo_len m.fifo + 7) / 8) m).1.fifo = 0 := by
      rw [hstate]; rfl
    obtain ⟨hs2, hsent2⟩ := drain_idle j _ hempty
    rw [hsplit, drain_add]
    refine ⟨?_, ?_, ?_⟩
    · show kfifo_len (drain (j + 1) (drain ((kfifo_len m.fifo + 7) / 8) m).1).1.fifo = 0
      rw [hs2]
      exact hempty
    · show armed (drain (j + 1) (drain ((kfifo_len m.fifo + 7) / 8) m).1).1 = false
      rw [hs2]
      rfl
    · show sent ((drain ((kfifo_len m.fifo + 7) / 8) m).2
          ++ (drain (j + 1) (drain ((kfifo_len m.fifo + 7) / 8) m).1).2) = m.fifo.buf
      rw [sent_append, hsent2, hsent, List.append_nil]
  have hbound : (kfifo_len m.fifo + 7) / 8 + 1 ≤ 17 := by omega
  have h17 := hafter (17 - ((kfifo_len m.fifo + 7) / 8 + 1))
  have hidx : (kfifo_len m.fifo + 7) / 8 + 1 + (17 - ((kfifo_len m.fifo + 7) / 8 + 1)) = 17 := by
    omega
  rw [hidx] at h17
  refine ⟨?_, hsent, ?_, hafter, hbound, h17⟩
  · rw [hstate]; rfl
  · rw [hstate]; exact ha

set_option maxRecDepth 8000 in
/-- Witness of C10: the full fifo 0..127 with the gate armed; 16 interrupts transmit the
128 bytes in order and leave the fifo empty with the gate still armed, the 17th disarms
the gate. -/
theorem drain_to_quiescence_witness :
    kfifo_len sample_full.fifo ≤ 128 ∧ armed sample_full = true ∧
    kfifo_len (drain 16 sample_full).1.fifo = 0 ∧
    sent (drain 16 sample_full).2 = List.range 128 ∧
    armed (drain 16 sample_full).1 = true ∧
    kfifo_len (drain 17 sample_full).1.fifo = 0 ∧
    armed (drain 17 sample_full).1 = false :=
  ⟨by decide, by decide,
    (drain_to_quiescence sample_full (by decide) (by decide)).1,
    (drain_to_quiescence sample_full (by decide) (by decide)).2.1,
    (drain_to_quiescence sample_full (by decide) (by decide)).2.2.1,
    (drain_to_quiescence sample_full (by decide) (by decide)).2.2.2.2.2.1,
    (drain_to_quiescence sample_full (by decide) (by decide)).2.2.2.2.2.2.1⟩

/-! ## C11: bounds of the local arrays -/

theorem transmit_length (data : List Nat) (num : Nat) :
    (bcm2708_midi_transmit data num).length = num := by
  simp [bcm2708_midi_transmit]

/-- The counts of a trigger call in a state whose fifo has capacity `FIFO_SIZE`: the count
requested from the source and the count of bytes appended to the fifo. -/
theorem trigger_counts (substream : Nat → List Nat) (s : bcm2708_midi)
    (hs : s.fifo.size = FIFO_SIZE) :
    (∀ count ret, Call.rawmidi_transmit count ret ∈ (bcm2708_midi_trigger substream s).2 →
      count = kfifo_avail s.fifo ∧ count ≤ FIFO_SIZE ∧
      ret = (substream (kfifo_avail s.fifo)).length) ∧
    (∀ accepted, Call.fifo_in accepted ∈ (bcm2708_midi_trigger substream s).2 →
      accepted.length ≤ kfifo_avail s.fifo ∧ accepted.length ≤ FIFO_SIZE ∧
      accepted.length ≤ (substream (kfifo_avail s.fifo)).length) := by
  have hav : kfifo_avail s.fifo ≤ FIFO_SIZE := by
    simp only [kfifo_avail, hs]
    omega
  simp only [bcm2708_midi_trigger]
  split
  · simp
  · refine ⟨?_, ?_⟩
    · intro count ret hmem
      have hc : count = kfifo_avail s.fifo
          ∧ ret = (substream (kfifo_avail s.fifo)).length := by
        split at hmem <;> simpa using hmem
      exact ⟨hc.1, hc.1 ▸ hav, hc.2⟩
    · intro accepted hmem
      have ha : accepted = List.take (kfifo_in s.fifo (substream (kfifo_avail s.fifo))
          (min (substream (kfifo_avail s.fifo)).length (kfifo_avail s.fifo))).2
          (substream (kfifo_avail s.fifo)) := by
        split at hmem <;> simpa using hmem
      subst ha
      simp only [kfifo_in, List.length_take]
      omega

/-- The count of an interrupt call: the bytes handed to `bcm2708_midi_transmit`. -/
theorem interrupt_counts (s : bcm2708_midi) :
    (kfifo_out s.fifo 8).2.length ≤ 8 ∧
    (∀ written, Call.transmit written ∈ (bcm2708_midi_interrupt s).2 →
      written.length = (kfifo_out s.fifo 8).2.length ∧ written.length ≤ 8) := by
  have hlen : (kfifo_out s.fifo 8).2.length ≤ 8 := by
    simp only [kfifo_out, List.length_take]
    omega
  refine ⟨hlen, ?_⟩
  intro written hmem
  simp only [bcm2708_midi_interrupt] at hmem
  split at hmem
  · have hw : written = bcm2708_midi_transmit (kfifo_out s.fifo 8).2
        (kfifo_out s.fifo 8).2.length := by
      simpa using hmem
    rw [hw, transmit_length]
    exact ⟨rfl, hlen⟩
  · simp at hmem

/-- C11. Local-array bounds: in every state reachable from the fifo that
`bcm2708_midi_init_fifo` creates, by any sequence of open, close, trigger and interrupt
calls, (1) the count a trigger call requests from the source is `kfifo_avail` and is at
most `FIFO_SIZE = 128`, the size of its array `data[]`; (2) the count of bytes it enqueues
is at most the requested count, hence at most 128, and a source that returns at most the
requested count stores at most 128 bytes in `data[]`; (3) the count an interrupt call
dequeues and passes to `bcm2708_midi_transmit` is at most 8, the size of its array
`data[8]`, so the indices `0 .. num - 1` that `bcm2708_midi_transmit` reads are below 8. -/
theorem local_array_bounds (m m0 : bcm2708_midi) (nomem : Bool) (ops : List Op)
    (substream : Nat → List Nat)
    (h : bcm2708_midi_init_fifo m nomem = Except.ok m0) :
    FIFO_SIZE = 128 ∧
    kfifo_avail (run ops m0).1.fifo ≤ FIFO_SIZE ∧
    (∀ count ret,
      Call.rawmidi_transmit count ret ∈ (bcm2708_midi_trigger substream (run ops m0).1).2 →
        count = kfifo_avail (run ops m0).1.fifo ∧ count ≤ FIFO_SIZE ∧
        ((substream count).length ≤ count → ret ≤ FIFO_SIZE)) ∧
    (∀ accepted,
      Call.fifo_in accepted ∈ (bcm2708_midi_trigger substream (run ops m0).1).2 →
        accepted.length ≤ kfifo_avail (run ops m0).1.fifo ∧ accepted.length ≤ FIFO_SIZE) ∧
    (∀ written,
      Call.transmit written ∈ (bcm2708_midi_interrupt (run ops m0).1).2 →
        written.length ≤ 8 ∧ ∀ i ∈ List.range written.length, i < 8) := by
  have hok := run_fifo_ok ops m0 (init_fifo_ok m m0 nomem h).1
  have htrig := trigger_counts substream (run ops m0).1 hok.1
  have hirq := interrupt_counts (run ops m0).1
  have hav : kfifo_avail (run ops m0).1.fifo ≤ FIFO_SIZE := by
    simp only [kfifo_avail, hok.1]
    omega
  refine ⟨rfl, hav, ?_, ?_, ?_⟩
  · intro count ret hmem
    obtain ⟨hc, hle, hr⟩ := htrig.1 count ret hmem
    refine ⟨hc, hle, ?_⟩
    intro hsrc
    rw [hr, ← hc]
    omega
  · intro accepted hmem
    exact ⟨(htrig.2 accepted hmem).1, (htrig.2 accepted hmem).2.1⟩
  · intro written hmem
    have hw := (hirq.2 written hmem).2
    refine ⟨hw, ?_⟩
    intro i hi
    have := List.mem_range.mp hi
    omega

/-- Witness of C11: the fifo created by `bcm2708_midi_init_fifo`, the session that
enqueues 128 bytes and takes two interrupts (16 bytes free afterwards), and a producer
holding 200 bytes. -/
theorem local_array_bounds_witness :
    bcm2708_midi_init_fifo sample_unallocated false = Except.ok sample_allocated ∧
    kfifo_avail (run sample_session sample_allocated).1.fifo ≤ FIFO_SIZE ∧
    (∀ accepted,
      Call.fifo_in accepted ∈ (bcm2708_midi_trigger (snd_rawmidi_transmit (List.range 200))
          (run sample_session sample_allocated).1).2 →
        accepted.length ≤ kfifo_avail (run sample_session sample_allocated).1.fifo ∧
        accepted.length ≤ FIFO_SIZE) ∧
    (∀ written,
      Call.transmit written ∈ (bcm2708_midi_interrupt (run sample_session sample_allocated).1).2 →
        written.length ≤ 8 ∧ ∀ i ∈ List.range written.length, i < 8) :=
  ⟨rfl,
    (local_array_bounds sample_unallocated sample_allocated false sample_session
      (snd_rawmidi_transmit (List.range 200)) rfl).2.1,
    (local_array_bounds sample_unallocated sample_allocated false sample_session
      (snd_rawmidi_transmit (List.range 200)) rfl).2.2.2.1,
    (local_array_bounds sample_unallocated sample_allocated false sample_session
      (snd_rawmidi_transmit (List.range 200)) rfl).2.2.2.2⟩

end Bcm2708Midi

/-!
# PGA2310 programmable gain amplifier: gain code, stored volume and read back

A shallow embedding of `pga2310_write`, `pga2310_to_frac`, `pga2310_read_raw` and
`pga2310_write_raw` of `drivers/iio/amplifiers/pga2310.c`.  A C `int` is an integer
wrapped to 32 bits where the source multiplies or adds caller-supplied values; a `u8` is
a natural number reduced modulo 256 where it is stored or passed.  Division of C
integers truncates toward zero (`Int.tdiv`).
-/

namespace Pga2310

/-- The error code EINVAL. -/
def EINVAL : Int := 22

/-- The value of a C `int` expression: two's complement wrap to 32 bits. -/
def to_int (x : Int) : Int := (x + 2 ^ 31) % 2 ^ 32 - 2 ^ 31

/-- The `mask` argument of the raw accessors.  The enumeration `iio_chan_info_enum`
(include/linux/iio/iio.h) is not among the sources; the driver only distinguishes
`IIO_CHAN_INFO_HARDWAREGAIN` from every other value. -/
inductive iio_chan_info where
  | IIO_CHAN_INFO_HARDWAREGAIN
  | IIO_CHAN_INFO_OTHER
deriving DecidableEq

/-- The structure `struct pga231x`: `u8 volume[4]` and `u8 tx_buf[4]`. -/
structure pga231x where
  volume : List Nat
  tx_buf : List Nat
deriving DecidableEq

/-- The part of `struct iio_dev` the driver uses: its private data and `num_channels`. -/
structure iio_dev where
  pga : pga231x
  num_channels : Nat
deriving DecidableEq

/-- The function `pga2310_write`: the loop `tx_buf[i] = volume[i]` for
`i < num_channels`, then `ret = spi_write(spi, tx_buf, num_channels)`, which is returned;
`spi_ret` is what the SPI core returns for that transfer. -/
def pga2310_write (indio_dev : iio_dev) (spi_ret : Int) : iio_dev × Int :=
  ({ indio_dev with
      pga := { indio_dev.pga with
        tx_buf := (List.range indio_dev.num_channels).foldl
          (fun buf i => buf.set i (indio_dev.pga.volume.getD i 0)) indio_dev.pga.tx_buf } },
    spi_ret)

/-- The function `pga2310_to_frac(u8 volume, int *integer, int *fractional)`:
`code = 5 * volume - 960; *integer = code / 10;
*fractional = abs((code - *integer * 10) * 100000);`.  The result is the pair
`(*integer, *fractional)`. -/
def pga2310_to_frac (volume : Nat) : Int × Int :=
  let code : Int := 5 * ((volume % 256 : Nat) : Int) - 960
  let integer : Int := Int.tdiv code 10
  let fractional : Int := (((code - integer * 10) * 100000).natAbs : Int)
  (integer, fractional)

/-- The function `pga2310_read_raw`: for `IIO_CHAN_INFO_HARDWAREGAIN` it fills
`(integer, fractional)` from `volume[chan->channel]` and returns the format code
`IIO_VAL_INT_MINUS_MICRO_DB` (the `ok` case); for any other mask it returns `-EINVAL`. -/
def pga2310_read_raw (indio_dev : iio_dev) (channel : Nat) (mask : iio_chan_info) :
    Except Int (Int × Int) :=
  match mask with
  | iio_chan_info.IIO_CHAN_INFO_HARDWAREGAIN =>
    Except.ok (pga2310_to_frac (indio_dev.pga.volume.getD channel 0))
  | _ => Except.error (-EINVAL)

/-- The gain code of `pga2310_write_raw`, in tenths of a dB:
`code = ((integer * 10) + (fractional / 100000));`. -/
def gain_code (integer fractional : Int) : Int :=
  to_int (to_int (integer * 10) + Int.tdiv fractional 100000)

/-- The function `pga2310_write_raw`: the gain code is computed and checked against the
range `-960 .. 315` (`-EINVAL` outside); then `code = (code + 960) / 5` and, for
`IIO_CHAN_INFO_HARDWAREGAIN`, `volume[chan->channel] = code` (a store to a `u8`) followed
by `pga2310_write`, whose result is returned; any other mask returns `-EINVAL`. -/
def pga2310_write_raw (indio_dev : iio_dev) (channel : Nat) (integer fractional : Int)
    (mask : iio_chan_info) (spi_ret : Int) : iio_dev × Int :=
  let code := gain_code integer fractional
  if code < -960 ∨ code > 315 then
    (indio_dev, -EINVAL)
  else
    let code := Int.tdiv (code + 960) 5
    match mask with
    | iio_chan_info.IIO_CHAN_INFO_HARDWAREGAIN =>
      pga2310_write
        { indio_dev with
          pga := { indio_dev.pga with
            volume := indio_dev.pga.volume.set channel (code.toNat % 256) } }
        spi_ret
    | _ => (indio_dev, -EINVAL)

/-- A sample device: the two-channel PGA2310 as `pga2310_probe` leaves it. -/
def sample_dev : iio_dev :=
  { pga := { volume := [0, 0, 0, 0], tx_buf := [0, 0, 0, 0] }, num_channels := 2 }

/-! ## C12: gain round trip -/

/-- Truncating division by a non-negative divisor, in terms of floor division. -/
theorem tdiv_cases (a b : Int) (hb : 0 ≤ b) :
    (0 ≤ a → Int.tdiv a b = a / b) ∧ (a ≤ 0 → Int.tdiv a b = -((-a) / b)) := by
  refine ⟨fun ha => Int.tdiv_eq_ediv ha hb, fun ha => ?_⟩
  have h1 : Int.tdiv (-a) b = (-a) / b := Int.tdiv_eq_ediv (by omega) hb
  rw [Int.neg_tdiv] at h1
  omega

/-- What `pga2310_write_raw` does with a gain code inside the range. -/
theorem write_raw_accepted (indio_dev : iio_dev) (channel : Nat) (integer fractional : Int)
    (spi_ret : Int)
    (hlo : -960 ≤ gain_code integer fractional) (hhi : gain_code integer fractional ≤ 315) :
    (pga2310_write_raw indio_dev channel integer fractional
        iio_chan_info.IIO_CHAN_INFO_HARDWAREGAIN spi_ret).2 = spi_ret ∧
    (pga2310_write_raw indio_dev channel integer fractional
        iio_chan_info.IIO_CHAN_INFO_HARDWAREGAIN spi_ret).1.pga.volume
      = indio_dev.pga.volume.set channel
          ((Int.tdiv (gain_code integer fractional + 960) 5).toNat % 256) := by
  have hin : ¬ (gain_code integer fractional < -960 ∨ gain_code integer fractional > 315) := by
    omega
  refine ⟨?_, ?_⟩ <;> simp only [pga2310_write_raw, if_neg hin, pga2310_write]

/-- The volume stored for a gain code `c` in range, and what `pga2310_to_frac` makes of
it when `c` is a multiple of 5. -/
theorem to_frac_of_stored (c : Int) (hlo : -960 ≤ c) (hhi : c ≤ 315) (hstep : c % 5 = 0) :
    (((Int.tdiv (c + 960) 5).toNat % 256 : Nat) : Int) = (c + 960) / 5 ∧
    (Int.tdiv (c + 960) 5).toNat % 256 < 256 ∧
    5 * (((Int.tdiv (c + 960) 5).toNat % 256 : Nat) : Int) - 960 = c ∧
    pga2310_to_frac ((Int.tdiv (c + 960) 5).toNat % 256)
      = (Int.tdiv c 10, (((c - Int.tdiv c 10 * 10) * 100000).natAbs : Int)) := by
  have hdiv : Int.tdiv (c + 960) 5 = (c + 960) / 5 := (tdiv_cases (c + 960) 5 (by omega)).1 (by omega)
  have hv : (((Int.tdiv (c + 960) 5).toNat % 256 : Nat) : Int) = (c + 960) / 5 := by
    rw [hdiv]
    omega
  have hcode : 5 * (((Int.tdiv (c + 960) 5).toNat % 256 : Nat) : Int) - 960 = c := by
    rw [hv]
    omega
  refine ⟨hv, Nat.mod_lt _ (by decide), hcode, ?_⟩
  have hmod : (Int.tdiv (c + 960) 5).toNat % 256 % 256 = (Int.tdiv (c + 960) 5).toNat % 256 :=
    Nat.mod_mod _ _
  simp only [pga2310_to_frac, hmod, hcode]

/-- C12, counterexample. Gain -1.5 dB, written as `integer = -1`, `fractional = -500000`
on channel 0: the gain code is `c = -15`, inside the range and a multiple of 5, the write
is accepted and stores volume 189; the read back returns the pair `(-1, 500000)`, for
which `i * 10 + f / 100000` is `-5`, not `-15`. -/
theorem gain_round_trip_counterexample :
    gain_code (-1) (-500000) = -15 ∧
    (pga2310_write_raw sample_dev 0 (-1) (-500000)
        iio_chan_info.IIO_CHAN_INFO_HARDWAREGAIN 0).2 = 0 ∧
    (pga2310_write_raw sample_dev 0 (-1) (-500000)
        iio_chan_info.IIO_CHAN_INFO_HARDWAREGAIN 0).1.pga.volume = [189, 0, 0, 0] ∧
    pga2310_read_raw
        (pga2310_write_raw sample_dev 0 (-1) (-500000)
          iio_chan_info.IIO_CHAN_INFO_HARDWAREGAIN 0).1
        0 iio_chan_info.IIO_CHAN_INFO_HARDWAREGAIN
      = Except.ok (-1, 500000) ∧
    (-1 : Int) * 10 + Int.tdiv 500000 100000 = -5 ∧
    (-1 : Int) * 10 + Int.tdiv 500000 100000 ≠ gain_code (-1) (-500000) := by
  refine ⟨by decide, by decide, by decide, rfl, by decide, by decide⟩

/-- C12, amended. For every `(integer, fractional)` whose gain code `c` is in
`-960 .. 315` and a multiple of 5, on a channel of the device: `pga2310_write_raw`
accepts (it returns the result of the SPI write) and stores the volume `(c + 960) / 5`,
which fits a `u8` and satisfies `5 * volume - 960 = c`; `pga2310_read_raw` then returns
a pair `(i, f)` whose fractional part is a magnitude, `f >= 0`: when `c >= 0` or `c` is a
multiple of 10 it satisfies `i * 10 + f / 100000 = c`, and when `c <= -10` it satisfies
`i * 10 - f / 100000 = c`. -/
theorem gain_read_back (indio_dev : iio_dev) (channel : Nat) (integer fractional : Int)
    (spi_ret : Int)
    (hch : channel < indio_dev.pga.volume.length)
    (hlo : -960 ≤ gain_code integer fractional) (hhi : gain_code integer fractional ≤ 315)
    (hstep : gain_code integer fractional % 5 = 0) :
    (pga2310_write_raw indio_dev channel integer fractional
        iio_chan_info.IIO_CHAN_INFO_HARDWAREGAIN spi_ret).2 = spi_ret ∧
    (((pga2310_write_raw indio_dev channel integer fractional
        iio_chan_info.IIO_CHAN_INFO_HARDWAREGAIN spi_ret).1.pga.volume.getD channel 0 : Nat)
        : Int) = (gain_code integer fractional + 960) / 5 ∧
    (pga2310_write_raw indio_dev channel integer fractional
        iio_chan_info.IIO_CHAN_INFO_HARDWAREGAIN spi_ret).1.pga.volume.getD channel 0 < 256 ∧
    5 * (((pga2310_write_raw indio_dev channel integer fractional
        iio_chan_info.IIO_CHAN_INFO_HARDWAREGAIN spi_ret).1.pga.volume.getD channel 0 : Nat)
        : Int) - 960 = gain_code integer fractional ∧
    (∃ i f,
      pga2310_read_raw
          (pga2310_write_raw indio_dev channel integer fractional
            iio_chan_info.IIO_CHAN_INFO_HARDWAREGAIN spi_ret).1
          channel iio_chan_info.IIO_CHAN_INFO_HARDWAREGAIN
        = Except.ok (i, f) ∧
      0 ≤ f ∧
      ((0 ≤ gain_code integer fractional ∨ gain_code integer fractional % 10 = 0) →
        i * 10 + Int.tdiv f 100000 = gain_code integer fractional) ∧
      (gain_code integer fractional ≤ -10 →
        i * 10 - Int.tdiv f 100000 = gain_code integer fractional)) := by
  obtain ⟨hret, hvol⟩ := write_raw_accepted indio_dev channel integer fractional spi_ret hlo hhi
  obtain ⟨hv, hlt, hcode, hfrac⟩ := to_frac_of_stored (gain_code integer fractional) hlo hhi hstep
  have hget : (pga2310_write_raw indio_dev channel integer fractional
      iio_chan_info.IIO_CHAN_INFO_HARDWAREGAIN spi_ret).1.pga.volume.getD channel 0
      = (Int.tdiv (gain_code integer fractional + 960) 5).toNat % 256 := by
    rw [hvol]
    simp [hch]
  rw [hget]
  refine ⟨hret, hv, hlt, hcode, Int.tdiv (gain_code integer fractional) 10,
    (((gain_code integer fractional - Int.tdiv (gain_code integer fractional) 10 * 10)
      * 100000).natAbs : Int), ?_, ?_, ?_, ?_⟩
  · simp only [pga2310_read_raw, hget, hfrac]
  · omega
  · intro hc
    rcases Int.le_total 0 (gain_code integer fractional) with hpos | hneg
    · rw [(tdiv_cases (gain_code integer fractional) 10 (by omega)).1 hpos]
      rw [(tdiv_cases _ 100000 (by omega)).1 (by omega)]
      omega
    · rw [(tdiv_cases (gain_code integer fractional) 10 (by omega)).2 hneg]
      rw [(tdiv_cases _ 100000 (by omega)).1 (by omega)]
      omega
  · intro hc
    rw [(tdiv_cases (gain_code integer fractional) 10 (by omega)).2 (by omega)]
    rw [(tdiv_cases _ 100000 (by omega)).1 (by omega)]
    omega

/-- Witness of C12 amended: gain -1.5 dB written as `(-1, -500000)` on channel 0 of the
sample device; the pair read back is `(-1, 500000)` and `-1 * 10 - 5 = -15`. -/
theorem gain_read_back_witness :
    (0 < sample_dev.pga.volume.length ∧ -960 ≤ gain_code (-1) (-500000) ∧
      gain_code (-1) (-500000) ≤ 315 ∧ gain_code (-1) (-500000) % 5 = 0) ∧
    (pga2310_write_raw sample_dev 0 (-1) (-500000)
        iio_chan_info.IIO_CHAN_INFO_HARDWAREGAIN 0).1.pga.volume.getD 0 0 < 256 ∧
    5 * (((pga2310_write_raw sample_dev 0 (-1) (-500000)
        iio_chan_info.IIO_CHAN_INFO_HARDWAREGAIN 0).1.pga.volume.getD 0 0 : Nat) : Int) - 960
      = gain_code (-1) (-500000) :=
  ⟨⟨by decide, by decide, by decide, by decide⟩,
    (gain_read_back sample_dev 0 (-1) (-500000) 0 (by decide) (by decide) (by decide)
      (by decide)).2.2.1,
    (gain_read_back sample_dev 0 (-1) (-500000) 0 (by decide) (by decide) (by decide)
      (by decide)).2.2.2.1⟩

end Pga2310

/-!
# HD44780 display: cursor position written and read back

A shallow embedding of the sysfs accessors `read_cursor` and `write_cursor` of
`drivers/auxdisplay/hd44780.c`, with the constants of `include/linux/hd44780.h`.
The GPIO transfer of a byte (`hd44780_write`, `hd44780_read`) is a bit-by-bit copy of
the byte and is represented by the byte itself: `write_cursor` returns the command byte
it sends, `read_cursor` takes the byte it reads.
-/

namespace Hd44780

/-- The error code EINVAL. -/
def EINVAL : Int := 22

/-- The enumerator `HD44780_DDRAM = 7`: the bit that marks a set-DDRAM-address command. -/
def HD44780_DDRAM : Nat := 7

/-- The macro `HD44780_LINE1_START`. -/
def HD44780_LINE1_START : Nat := 0x00

/-- The macro `HD44780_LINE2_START`. -/
def HD44780_LINE2_START : Nat := 0x40

/-- The structure `struct hd44780_format`. -/
structure hd44780_format where
  width : Int
  height : Int
deriving DecidableEq

/-- The function `hd44780_command(pdata, unsigned char cmd)`: the argument, an `int`
expression that is not negative here, is converted to `unsigned char`; the result is the
byte sent to the display with RS = 0. -/
def hd44780_command (cmd : Nat) : Nat := cmd % 256

/-- The function `write_cursor`.  `err` and `pos` are the result of
`kstrtol(buf, 10, &pos)`.  The result is the error returned, or the command byte sent
(the function then returns `strlen(buf) + 1`).  Line by line:
`if (err) return err;` `if (pos < 0) return -EINVAL;`
`if (pos >= width * height) return -EINVAL;`
`line = pos / width + 1; pos = pos % width;`
`if (line == 1) hd44780_command((1 << HD44780_DDRAM) | (HD44780_LINE1_START + pos));`
`else hd44780_command((1 << HD44780_DDRAM) | (HD44780_LINE2_START + pos));`. -/
def write_cursor (format : hd44780_format) (err : Int) (pos : Int) : Except Int Nat :=
  if err ≠ 0 then
    Except.error err
  else if pos < 0 then
    Except.error (-EINVAL)
  else if pos ≥ format.width * format.height then
    Except.error (-EINVAL)
  else
    let line : Int := Int.tdiv pos format.width + 1
    let pos : Int := Int.tmod pos format.width
    if line = 1 then
      Except.ok (hd44780_command ((1 <<< HD44780_DDRAM) ||| (HD44780_LINE1_START + pos.toNat)))
    else
      Except.ok (hd44780_command ((1 <<< HD44780_DDRAM) ||| (HD44780_LINE2_START + pos.toNat)))

/-- The function `read_cursor`.  `get` is the byte `hd44780_read` fetches with RS = 0; it
is stored in the lowest byte of the local `int pos`, whose other bytes keep whatever they
held (`stale`), and `pos &= 0x7F` keeps the low seven bits.  The result is the number
printed into `buf`.  Line by line:
`if (pos > HD44780_LINE2_START)` then `pos -= HD44780_LINE2_START; pos += width;`
`if (pos > 2 * width - 1) pos = -1;`
`else if (pos > width - 1) pos = -1;`. -/
def read_cursor (format : hd44780_format) (stale : Nat) (get : Nat) : Int :=
  let pos : Int := (((stale * 256 + get % 256) &&& 0x7F : Nat) : Int)
  if pos > (HD44780_LINE2_START : Int) then
    let pos : Int := pos - (HD44780_LINE2_START : Int) + format.width
    if pos > 2 * format.width - 1 then -1 else pos
  else if pos > format.width - 1 then
    -1
  else
    pos

/-- The display controller, as the claim describes it: a command byte with bit 7 set
loads its low seven bits into the DDRAM address counter. -/
def address_counter (cmd : Nat) : Nat := cmd &&& 0x7F

/-- The display controller: a read with RS = 0 returns the busy flag in bit 7 and the
address counter in bits 0 to 6. -/
def status_byte (busy : Bool) (ac : Nat) : Nat := (if busy then 0x80 else 0) + ac % 128

/-- The position `read_cursor` reports after `write_cursor` has set `pos`: the command
byte sets the address counter, which is read back as the status byte and decoded.  A
rejected write yields no position. -/
def cursor_round_trip (format : hd44780_format) (pos : Int) (stale : Nat) (busy : Bool) :
    Option Int :=
  match write_cursor format 0 pos with
  | Except.ok cmd => some (read_cursor format stale (status_byte busy (address_counter cmd)))
  | Except.error _ => none

/-! ## C13: cursor position round trip -/

set_option maxRecDepth 20000 in
/-- Setting bit 7 on a value below 128 adds 128. -/
theorem lor_bit7 : ∀ x, x < 128 → (1 <<< 7 ||| x) = 128 + x := by decide

theorem and_7f (x : Nat) : x &&& 0x7F = x % 128 := Nat.and_pow_two_sub_one_eq_mod x 7

/-- The seven address bits survive the way from the command byte to the masked value in
`read_cursor`, whatever the busy flag and the stale bytes are. -/
theorem address_read_back (x stale : Nat) (busy : Bool) (hx : x < 128) :
    (stale * 256
        + status_byte busy (address_counter (hd44780_command (1 <<< HD44780_DDRAM ||| x))) % 256)
      &&& 0x7F = x := by
  have hl : (1 <<< HD44780_DDRAM ||| x) = 128 + x := lor_bit7 x hx
  rw [hl, and_7f]
  simp only [status_byte, address_counter, hd44780_command, and_7f]
  cases busy <;> simp <;> omega

theorem tdiv_tmod_line2 (pos w : Int) (hw : 0 < w) (h1 : w ≤ pos) (h2 : pos < 2 * w) :
    Int.tdiv pos w = 1 ∧ Int.tmod pos w = pos - w := by
  have hd : Int.tdiv pos w = 1 := by
    rw [Int.tdiv_eq_ediv (by omega) (by omega)]
    have hsplit : pos = (pos - w) + 1 * w := by omega
    rw [hsplit, Int.add_mul_ediv_right _ _ (by omega),
      Int.ediv_eq_zero_of_lt (by omega) (by omega)]
    rfl
  refine ⟨hd, ?_⟩
  rw [Int.tmod_def, hd]
  omega

/-- The command `write_cursor` sends for a position on line 1. -/
theorem write_cursor_line1 (w h pos : Int) (h0 : 0 ≤ pos) (hlt : pos < w) (hin : pos < w * h) :
    write_cursor { width := w, height := h } 0 pos
      = Except.ok (hd44780_command (1 <<< HD44780_DDRAM ||| (HD44780_LINE1_START + pos.toNat))) := by
  have hd : Int.tdiv pos w = 0 := Int.tdiv_eq_zero_of_lt h0 hlt
  have hm : Int.tmod pos w = pos := Int.tmod_eq_of_lt h0 hlt
  have hn1 : ¬ pos < 0 := by omega
  have hn2 : ¬ pos ≥ w * h := by omega
  simp [write_cursor, hn1, hn2, hd, hm]

/-- The command `write_cursor` sends for a position on line 2. -/
theorem write_cursor_line2 (w h pos : Int) (hw : 0 < w) (h1 : w ≤ pos) (h2 : pos < 2 * w)
    (hin : pos < w * h) :
    write_cursor { width := w, height := h } 0 pos
      = Except.ok
          (hd44780_command (1 <<< HD44780_DDRAM ||| (HD44780_LINE2_START + (pos - w).toNat))) := by
  obtain ⟨hd, hm⟩ := tdiv_tmod_line2 pos w hw h1 h2
  have hn1 : ¬ pos < 0 := by omega
  have hn2 : ¬ pos ≥ w * h := by omega
  simp [write_cursor, hn1, hn2, hd, hm]

/-- Every position outside `0 .. width * height - 1` is rejected with `-EINVAL`. -/
theorem write_cursor_rejects (format : hd44780_format) (pos : Int)
    (hout : pos < 0 ∨ pos ≥ format.width * format.height) :
    write_cursor format 0 pos = Except.error (-EINVAL) := by
  simp only [write_cursor]
  rcases hout with hneg | hbig
  · simp [hneg]
  · by_cases hneg : pos < 0
    · simp [hneg]
    · simp [hneg, hbig]

/-- Away from the first column of line 2 the position is read back as written: for width
`1 .. 64`, height 1 or 2, and every valid position other than `pos = width`. -/
theorem cursor_round_trip_elsewhere (w h pos : Int) (stale : Nat) (busy : Bool)
    (hw1 : 1 ≤ w) (hw : w ≤ 64) (hh : h = 1 ∨ h = 2) (h0 : 0 ≤ pos) (hlt : pos < w * h)
    (hne : pos ≠ w) :
    cursor_round_trip { width := w, height := h } pos stale busy = some pos := by
  rcases Int.lt_or_le pos w with hl1 | hl2
  · have hx : HD44780_LINE1_START + pos.toNat < 128 := by
      simp only [HD44780_LINE1_START]
      omega
    simp only [cursor_round_trip, write_cursor_line1 w h pos h0 hl1 hlt, read_cursor,
      address_read_back _ stale busy hx]
    have hcast : ((HD44780_LINE1_START + pos.toNat : Nat) : Int) = pos := by
      simp only [HD44780_LINE1_START]
      omega
    rw [hcast]
    have hnot : ¬ pos > ((HD44780_LINE2_START : Nat) : Int) := by
      simp only [HD44780_LINE2_START]
      omega
    have hnot2 : ¬ pos > w - 1 := by omega
    simp [hnot, hnot2]
  · have h2w : pos < 2 * w := by
      rcases hh with hh1 | hh2
      · subst hh1; omega
      · subst hh2; omega
    have hx : HD44780_LINE2_START + (pos - w).toNat < 128 := by
      simp only [HD44780_LINE2_START]
      omega
    simp only [cursor_round_trip, write_cursor_line2 w h pos (by omega) hl2 h2w hlt, read_cursor,
      address_read_back _ stale busy hx]
    have hcast : ((HD44780_LINE2_START + (pos - w).toNat : Nat) : Int) = 64 + (pos - w) := by
      simp only [HD44780_LINE2_START]
      omega
    rw [hcast]
    have hyes : 64 + (pos - w) > ((HD44780_LINE2_START : Nat) : Int) := by
      simp only [HD44780_LINE2_START]
      omega
    have hnot2 : ¬ 64 + (pos - w) - ((HD44780_LINE2_START : Nat) : Int) + w > 2 * w - 1 := by
      simp only [HD44780_LINE2_START]
      omega
    simp only [if_pos hyes, if_neg hnot2, HD44780_LINE2_START]
    congr 1
    omega

/-- At the first column of line 2 the position is lost for every width `1 .. 64`:
`write_cursor` selects address `0x40`, which `read_cursor` does not take for line 2
because its test is `pos > HD44780_LINE2_START`, and the result is `-1`. -/
theorem cursor_round_trip_line2_start (w : Int) (stale : Nat) (busy : Bool)
    (hw1 : 1 ≤ w) (hw : w ≤ 64) :
    cursor_round_trip { width := w, height := 2 } w stale busy = some (-1) := by
  have hx : HD44780_LINE2_START + (w - w).toNat < 128 := by
    simp only [HD44780_LINE2_START]
    omega
  simp only [cursor_round_trip,
    write_cursor_line2 w 2 w (by omega) (le_refl _) (by omega) (by omega), read_cursor,
    address_read_back _ stale busy hx]
  have hcast : ((HD44780_LINE2_START + (w - w).toNat : Nat) : Int) = 64 := by
    simp only [HD44780_LINE2_START]
    omega
  rw [hcast]
  have hnot : ¬ (64 : Int) > ((HD44780_LINE2_START : Nat) : Int) := by
    simp only [HD44780_LINE2_START]
    omega
  have hyes : (64 : Int) > w - 1 := by omega
  simp [hnot, hyes]

/-- C13. The code at a 16 x 2 display and `pos = 16`, the first column of line 2, a valid
position (`0 <= 16 < 32`): `write_cursor` accepts it and sends the command `0xC0`, which
selects DDRAM address `0x40`; `read_cursor`, given that address counter back, compares
`0x40 > HD44780_LINE2_START`, which is false, takes the line 1 branch and, since
`0x40 > width - 1`, reports `-1` instead of 16.  The neighbouring position 17 is read
back as 17. -/
theorem cursor_line2_start_evaluated :
    write_cursor { width := 16, height := 2 } 0 16 = Except.ok 0xC0 ∧
    address_counter 0xC0 = HD44780_LINE2_START ∧
    status_byte false HD44780_LINE2_START = 0x40 ∧
    read_cursor { width := 16, height := 2 } 0 0x40 = -1 ∧
    cursor_round_trip { width := 16, height := 2 } 16 0 false = some (-1) ∧
    cursor_round_trip { width := 16, height := 2 } 17 0 false = some 17 :=
  ⟨rfl, by decide, by decide, by decide, by decide, by decide⟩

end Hd44780
